import Mathlib

/-!
Verification of the CST→AST transformation engine of a Solidity parser.

The concrete syntax tree (CST) produced by the ANTLR-generated parser is
modelled as an inductive tree: a node is either a terminal token carrying its
literal text, or a named grammar-production rule with an ordered child list.
The visitor functions of the Go source are translated into executable Lean
definitions over this model.  Sub-visits performed through the dispatcher
(`e.Visit` in the source) are abstracted by a parameter `visit : CST → Option α`:
the dispatcher returns either an AST node or nil, and the claims under study
only constrain how each builder routes its children through that callback.
A Go `panic` is modelled by an overall `none` / `.error` result.
-/

namespace SolParser

/-- A concrete-syntax-tree node: a terminal token with its literal text, or a
grammar-production rule node with its ordered children. -/
inductive CST where
  | token (text : String)
  | rule (kind : String) (children : List CST)

mutual

/-- Boolean equality on CST nodes. -/
def CST.beq : CST → CST → Bool
  | .token s, .token t => s == t
  | .rule k cs, .rule l ds => k == l && CST.beqList cs ds
  | _, _ => false

/-- Boolean equality on CST child lists. -/
def CST.beqList : List CST → List CST → Bool
  | [], [] => true
  | c :: cs, d :: ds => CST.beq c d && CST.beqList cs ds
  | _, _ => false

end

mutual

theorem CST.beq_iff : ∀ a b : CST, (CST.beq a b = true) ↔ a = b
  | .token s, .token t => by simp [CST.beq]
  | .token _, .rule _ _ => by simp [CST.beq]
  | .rule _ _, .token _ => by simp [CST.beq]
  | .rule k cs, .rule l ds => by
      simp [CST.beq, Bool.and_eq_true, CST.beqList_iff cs ds]

theorem CST.beqList_iff : ∀ a b : List CST, (CST.beqList a b = true) ↔ a = b
  | [], [] => by simp [CST.beqList]
  | [], _ :: _ => by simp [CST.beqList]
  | _ :: _, [] => by simp [CST.beqList]
  | c :: cs, d :: ds => by
      simp [CST.beqList, Bool.and_eq_true, CST.beq_iff c d, CST.beqList_iff cs ds]

end

instance : DecidableEq CST := fun a b =>
  decidable_of_iff (CST.beq a b = true) (CST.beq_iff a b)

mutual

/-- Literal source text spanned by a CST node (ANTLR `GetText`): a token is its
own text, a rule node concatenates the texts of its children. -/
def toText : CST → String
  | .token s => s
  | .rule _ cs => toTextList cs

/-- Concatenated text of a list of CST nodes. -/
def toTextList : List CST → String
  | [] => ""
  | c :: rest => toText c ++ toTextList rest

end

/-- The child list of a CST node (tokens have none). -/
def CST.children : CST → List CST
  | .token _ => []
  | .rule _ cs => cs

/-- Whether a CST node is a rule node of the given production kind. -/
def CST.isRule (c : CST) (kind : String) : Bool :=
  match c with
  | .rule k _ => k == kind
  | .token _ => false

theorem CST.children_rule (k : String) (cs : List CST) :
    (CST.rule k cs).children = cs := rfl

theorem CST.isRule_token (s kind : String) : (CST.token s).isRule kind = false := rfl

theorem CST.isRule_rule (k kind : String) (cs : List CST) :
    (CST.rule k cs).isRule kind = (k == kind) := rfl

theorem toText_token (s : String) : toText (CST.token s) = s := rfl

/-- All children that are rule nodes of the given production kind
(ANTLR's generated `AllXxx()` accessors). -/
def childrenOfKind (kind : String) (cs : List CST) : List CST :=
  cs.filter (fun c => c.isRule kind)

/-- The i-th child of the given production kind (ANTLR's `ctx.Xxx(i)`);
`none` when absent. -/
def getTyped (kind : String) (cs : List CST) (i : Nat) : Option CST :=
  (childrenOfKind kind cs)[i]?

/-- The unique child of the given production kind (ANTLR's `ctx.Xxx()`);
`none` when absent. -/
def findRule (kind : String) (cs : List CST) : Option CST :=
  cs.find? (fun c => c.isRule kind)

/-- All token children with the given literal text (models the generated
`AllXxxKeyword()` accessors, identifying keyword tokens by their text). -/
def tokensOfText (s : String) (cs : List CST) : List CST :=
  cs.filter (fun c => match c with | .token t => t == s | .rule _ _ => false)

/-- Source `hasElem`: whether a keyword-token list is non-empty. -/
def hasElem (a : List CST) : Bool :=
  a.length > 0

/-- Source `contains`: membership of a string in an operator list. -/
def listContains (list : List String) (s : String) : Bool :=
  match list with
  | [] => false
  | op :: rest => if s == op then true else listContains rest s

/-! ## The sparse-element (comma-to-null) algorithm, source `mapCommasToNulls` -/

/-- Loop body of source `mapCommasToNulls`: scans the children keeping the
"expecting element" flag `comma`; a comma met while expecting an element emits
an absent slot, an element flips the flag, a non-comma met while expecting a
separator is a fatal error (`none`), and a scan ending while expecting an
element emits one trailing absent slot. -/
def mapCommasToNullsGo (comma : Bool) : List CST → Option (List (Option CST))
  | [] => some (if comma then [none] else [])
  | child :: rest =>
    if comma then
      if toText child == "," then
        (mapCommasToNullsGo true rest).map (fun r => none :: r)
      else
        (mapCommasToNullsGo false rest).map (fun r => some child :: r)
    else
      if toText child != "," then none
      else mapCommasToNullsGo true rest

/-- Source `mapCommasToNulls`: the empty child list returns the empty result
immediately; otherwise the scan starts in the "expecting element" state. -/
def mapCommasToNulls (tree : List CST) : Option (List (Option CST)) :=
  if tree.isEmpty then some [] else mapCommasToNullsGo true tree

/-- Split a child list at its comma-texted positions: the list of maximal
segments between separators (a list with m commas has exactly m+1 segments). -/
def splitSegs : List CST → List (List CST)
  | [] => [[]]
  | c :: rest =>
    if toText c == "," then [] :: splitSegs rest
    else
      match splitSegs rest with
      | s :: ss => (c :: s) :: ss
      | [] => [[c]]

theorem splitSegs_ne_nil (l : List CST) : splitSegs l ≠ [] := by
  induction l with
  | nil => simp [splitSegs]
  | cons c rest ih =>
    simp only [splitSegs]
    split
    · simp
    · split
      · simp
      · simp

theorem splitSegs_length (l : List CST) :
    (splitSegs l).length = l.countP (fun c => toText c == ",") + 1 := by
  induction l with
  | nil => simp [splitSegs]
  | cons c rest ih =>
    simp only [splitSegs, List.countP_cons]
    by_cases h : toText c == ","
    · simp [h, ih]
    · simp only [h, if_false]
      cases hs : splitSegs rest with
      | nil => exact absurd hs (splitSegs_ne_nil rest)
      | cons s ss =>
        simp only [List.length_cons]
        rw [hs] at ih
        simp only [List.length_cons] at ih
        simp [h, ih]

theorem mapCommasToNullsGo_spec (l : List CST) :
    (∀ r, mapCommasToNullsGo true l = some r →
        r = (splitSegs l).map List.head? ∧
        r.filterMap id = l.filter (fun c => !(toText c == ","))) ∧
    (∀ r, mapCommasToNullsGo false l = some r →
        r = ((splitSegs l).tail).map List.head? ∧
        r.filterMap id = l.filter (fun c => !(toText c == ","))) := by
  induction l with
  | nil =>
    constructor
    · intro r hr
      simp only [mapCommasToNullsGo, if_true, Option.some_inj] at hr
      subst hr
      simp [splitSegs]
    · intro r hr
      simp only [mapCommasToNullsGo, if_false, Option.some_inj] at hr
      subst hr
      simp [splitSegs]
  | cons c rest ih =>
    constructor
    · intro r hr
      simp only [mapCommasToNullsGo, if_true] at hr
      by_cases hc : toText c == ","
      · rw [if_pos hc] at hr
        cases hgo : mapCommasToNullsGo true rest with
        | none => rw [hgo] at hr; simp at hr
        | some r' =>
          rw [hgo] at hr
          simp only [Option.map_some', Option.some_inj] at hr
          obtain ⟨h1, h2⟩ := ih.1 r' hgo
          subst hr
          constructor
          · simp [splitSegs, hc, h1]
          · simp [List.filter_cons, hc, h2]
      · rw [if_neg hc] at hr
        cases hgo : mapCommasToNullsGo false rest with
        | none => rw [hgo] at hr; simp at hr
        | some r' =>
          rw [hgo] at hr
          simp only [Option.map_some', Option.some_inj] at hr
          obtain ⟨h1, h2⟩ := ih.2 r' hgo
          subst hr
          constructor
          · simp only [splitSegs, hc, if_false]
            cases hs : splitSegs rest with
            | nil => exact absurd hs (splitSegs_ne_nil rest)
            | cons s ss =>
              rw [hs] at h1
              simp only [List.tail_cons] at h1
              simp [h1]
          · simp [List.filter_cons, hc, h2]
    · intro r hr
      simp only [mapCommasToNullsGo, if_false] at hr
      by_cases hc : toText c != ","
      · rw [if_pos hc] at hr; simp at hr
      · rw [if_neg hc] at hr
        have hc' : (toText c == ",") = true := by
          simpa using hc
        obtain ⟨h1, h2⟩ := ih.1 r hr
        constructor
        · simp [splitSegs, hc', h1]
        · simp [List.filter_cons, hc', h2]

/-- C2 counterexample: the empty raw child sequence has k = 0 elements and
m = 0 separator commas, but `mapCommasToNulls` returns the empty sequence
(0 slots), not the m+1 = 1 slots the claim requires. -/
theorem mapCommasToNulls_empty_cex :
    mapCommasToNulls ([] : List CST) = some [] ∧
    ¬ (([] : List (Option CST)).length =
        ([] : List CST).countP (fun c => toText c == ",") + 1) := by
  constructor
  · rfl
  · simp

/-- C2 (amended): for every NON-EMPTY raw child sequence accepted by the
sparse-element algorithm, the produced sequence has exactly m+1 slots where m
is the number of separator commas; slot i is the sole element of the i-th
inter-separator segment when that segment is non-empty and an absent marker
when it is empty (so a scan ending while still expecting an element emits one
trailing absent slot), and the elements appear in source order.  The empty
sequence instead produces an empty (0-slot) output. -/
theorem mapCommasToNulls_spec (l : List CST) (r : List (Option CST))
    (hne : l ≠ []) (h : mapCommasToNulls l = some r) :
    r.length = l.countP (fun c => toText c == ",") + 1 ∧
    r = (splitSegs l).map List.head? ∧
    r.filterMap id = l.filter (fun c => !(toText c == ",")) := by
  obtain ⟨c, rest, hl⟩ := List.exists_cons_of_ne_nil hne
  subst hl
  simp only [mapCommasToNulls, List.isEmpty_cons, if_false, Bool.false_eq_true] at h
  obtain ⟨h1, h2⟩ := (mapCommasToNullsGo_spec (c :: rest)).1 r h
  refine ⟨?_, h1, h2⟩
  rw [h1]
  simp [splitSegs_length]

/-- C2 witness: a concrete non-empty sequence `a , ,` (one element, two commas)
produces three slots with the element first and two trailing absent slots. -/
theorem mapCommasToNulls_spec_witness :
    mapCommasToNulls [CST.token "a", CST.token ",", CST.token ","] =
      some [some (CST.token "a"), none, none] ∧
    [some (CST.token "a"), none, none].length =
      [CST.token "a", CST.token ",", CST.token ","].countP
        (fun c => toText c == ",") + 1 := by
  refine ⟨by decide, ?_⟩
  exact (mapCommasToNulls_spec [CST.token "a", CST.token ",", CST.token ","]
    [some (CST.token "a"), none, none] (by decide) (by decide)).1

/-! ## Expression disambiguation engine, source `VisitExpression` -/

/-- Source `unaryOps`: prefix operator table. -/
def unaryOps : List String := ["-", "+", "--", "++", "~", "after", "delete", "!"]

/-- Source `postFixOps`: postfix operator table. -/
def postFixOps : List String := ["++", "--"]

/-- Source `binaryOps`: binary operator table, copied verbatim. -/
def binaryOps : List String :=
  ["+", "-", "*", "/", "**", "%", "<<", ">>", "&&", "||", ",,", "&", ",", "^",
   "<", ">", "<=", ">=", "==", "!=", "=", ",=", "^=", "&=", "<<=", ">>=",
   "+=", "-=", "*=", "/=", "%=", "|", "|="]

/-- Result of the expression disambiguation engine.  A sub-expression visited
through the dispatcher is an abstract `Option α` (nil is possible); the
single-child case returns the delegated child for the dispatcher to visit. -/
inductive EOut (α : Type) where
  | delegateChild (child : CST)
  | NewExpression (typeName : Option α)
  | UnaryOperation (operator : String) (subExpression : Option α) ( isPrefix : Bool)
  | TupleExpression (components : List (Option α)) (isArray : Bool)
  | MemberAccess (expression : Option α) (memberName : String)
  | BinaryOperation (operator : String) (left : Option α) (right : Option α)
  | FunctionCall (expression : Option α) (names : List String)
      (identifiers : List (Option α)) (arguments : List (Option α))
  | IndexRangeAccess (base : Option α) (indexStart : Option α) (indexEnd : Option α)
  | IndexAccess (base : Option α) (index : Option α)
  | NameValueExpression (expression : Option α) (arguments : Option α)
  | Conditional (condition : Option α) (trueExpression : Option α)
      (falseExpression : Option α)
deriving DecidableEq

/-- One name/value argument (source loop body over `AllNameValue`): the
argument expression, the literal name, and the name's identifier sub-node;
a missing sub-node is a fatal error. -/
def visitNameValue {α : Type} (visit : CST → Option α) (p : CST) :
    Option (String × Option α × Option α) := do
  let ex ← findRule "Expression" p.children
  let iden ← findRule "Identifier" p.children
  pure (toText iden, visit iden, visit ex)

/-- Call-argument extraction (source `VisitExpression`, function-call branch):
a positional expression list, or a name/value list producing parallel
names/identifiers/arguments, or neither (empty call). -/
def functionCallArgs {α : Type} (visit : CST → Option α) (ctxArgs : CST) :
    Option (List String × List (Option α) × List (Option α)) :=
  match findRule "ExpressionList" ctxArgs.children with
  | some el =>
      some ([], [], (childrenOfKind "Expression" el.children).map visit)
  | none =>
    match findRule "NameValueList" ctxArgs.children with
    | some nvl => do
        let l ← (childrenOfKind "NameValue" nvl.children).mapM (visitNameValue visit)
        pure (l.map (fun x => x.1), l.map (fun x => x.2.1), l.map (fun x => x.2.2))
    | none => some ([], [], [])

/-- Source `VisitExpression`: classification of a generic expression CST node
by child count, then by literal-text inspection of specific child positions,
first match wins; an unmatched shape is a fatal error (`none`). -/
def visitExpression {α : Type} (visit : CST → Option α) (cs : List CST) :
    Option (EOut α) :=
  match cs with
  | [c0] => some (.delegateChild c0)
  | [c0, c1] =>
    let op := toText c0
    if op == "new" then do
      let tn ← findRule "TypeName" [c0, c1]
      pure (.NewExpression (visit tn))
    else if listContains unaryOps op then do
      let sub ← getTyped "Expression" [c0, c1] 0
      pure (.UnaryOperation op (visit sub) true)
    else
      let op2 := toText c1
      if listContains postFixOps op2 then do
        let sub ← getTyped "Expression" [c0, c1] 0
        pure (.UnaryOperation op2 (visit sub) false)
      else none
  | [c0, c1, c2] =>
    if toText c0 == "(" && toText c2 == ")" then
      some (.TupleExpression [visit c1] false)
    else
      let op := toText c1
      if op == "." then do
        let ex ← getTyped "Expression" [c0, c1, c2] 0
        let iden ← findRule "Identifier" [c0, c1, c2]
        pure (.MemberAccess (visit ex) (toText iden))
      else if listContains binaryOps op then do
        let lft ← getTyped "Expression" [c0, c1, c2] 0
        let rgt ← getTyped "Expression" [c0, c1, c2] 1
        pure (.BinaryOperation op (visit lft) (visit rgt))
      else none
  | [c0, c1, c2, c3] =>
    if toText c1 == "(" && toText c3 == ")" then do
      let ctxArgs ← findRule "FunctionCallArguments" [c0, c1, c2, c3]
      let nia ← functionCallArgs visit ctxArgs
      let ex ← getTyped "Expression" [c0, c1, c2, c3] 0
      pure (.FunctionCall (visit ex) nia.1 nia.2.1 nia.2.2)
    else if toText c1 == "[" && toText c3 == "]" then
      if toText c2 == ":" then do
        let b ← getTyped "Expression" [c0, c1, c2, c3] 0
        pure (.IndexRangeAccess (visit b) none none)
      else do
        let b ← getTyped "Expression" [c0, c1, c2, c3] 0
        let ix ← getTyped "Expression" [c0, c1, c2, c3] 1
        pure (.IndexAccess (visit b) (visit ix))
    else if toText c1 == "\x7b" && toText c3 == "\x7d" then do
      let ex ← getTyped "Expression" [c0, c1, c2, c3] 0
      let nvl ← findRule "NameValueList" [c0, c1, c2, c3]
      pure (.NameValueExpression (visit ex) (visit nvl))
    else none
  | [c0, c1, c2, c3, c4] =>
    if toText c1 == "?" && toText c3 == ":" then do
      let cond ← getTyped "Expression" [c0, c1, c2, c3, c4] 0
      let te ← getTyped "Expression" [c0, c1, c2, c3, c4] 1
      let fe ← getTyped "Expression" [c0, c1, c2, c3, c4] 2
      pure (.Conditional (visit cond) (visit te) (visit fe))
    else if toText c1 == "[" && toText c2 == ":" && toText c4 == "]" then do
      let b ← getTyped "Expression" [c0, c1, c2, c3, c4] 0
      let en ← getTyped "Expression" [c0, c1, c2, c3, c4] 1
      pure (.IndexRangeAccess (visit b) none (visit en))
    else if toText c1 == "[" && toText c3 == ":" && toText c4 == "]" then do
      let b ← getTyped "Expression" [c0, c1, c2, c3, c4] 0
      let st ← getTyped "Expression" [c0, c1, c2, c3, c4] 1
      pure (.IndexRangeAccess (visit b) (visit st) none)
    else none
  | [c0, c1, c2, c3, c4, c5] =>
    if toText c1 == "[" && toText c3 == ":" && toText c5 == "]" then do
      let b ← getTyped "Expression" [c0, c1, c2, c3, c4, c5] 0
      let st ← getTyped "Expression" [c0, c1, c2, c3, c4, c5] 1
      let en ← getTyped "Expression" [c0, c1, c2, c3, c4, c5] 2
      pure (.IndexRangeAccess (visit b) (visit st) (visit en))
    else none
  | _ => none

/-- C1: for a generic expression CST node, with 4 children of shape
base, "[", child2, "]": if child2's text is ":" the result is an
IndexRangeAccess with both bounds absent, otherwise an IndexAccess whose
Index is the child-2 expression; with 5 children base, "[", ":", y, "]" an
IndexRangeAccess with only IndexEnd populated; with 5 children
base, "[", x, ":", "]" (x not the colon) only IndexStart; with 6 children
base, "[", x, ":", y, "]" both bounds; in every case Base is the child-0
expression. -/
theorem visitExpression_index_spec {α : Type} (visit : CST → Option α)
    (b x y c2 : CST)
    (hb : b.isRule "Expression" = true)
    (hx : x.isRule "Expression" = true)
    (hy : y.isRule "Expression" = true) :
    (toText c2 = ":" →
      visitExpression visit [b, .token "[", c2, .token "]"] =
        some (.IndexRangeAccess (visit b) none none)) ∧
    (toText x ≠ ":" →
      visitExpression visit [b, .token "[", x, .token "]"] =
        some (.IndexAccess (visit b) (visit x))) ∧
    (visitExpression visit [b, .token "[", .token ":", y, .token "]"] =
        some (.IndexRangeAccess (visit b) none (visit y))) ∧
    (toText x ≠ ":" →
      visitExpression visit [b, .token "[", x, .token ":", .token "]"] =
        some (.IndexRangeAccess (visit b) (visit x) none)) ∧
    (visitExpression visit [b, .token "[", x, .token ":", y, .token "]"] =
        some (.IndexRangeAccess (visit b) (visit x) (visit y))) := by
  refine ⟨?_, ?_, ?_, ?_, ?_⟩
  · intro hc2
    have hc2' : (toText c2 == ":") = true := by simp [hc2]
    simp +decide [visitExpression, toText_token, getTyped, childrenOfKind,
      List.filter_cons, CST.isRule_token, hb, hc2']
  · intro hxne
    have hx' : (toText x == ":") = false := by
      exact beq_eq_false_iff_ne.mpr hxne
    simp +decide [visitExpression, toText_token, getTyped, childrenOfKind,
      List.filter_cons, CST.isRule_token, hb, hx, hx']
  · simp +decide [visitExpression, toText_token, getTyped, childrenOfKind,
      List.filter_cons, CST.isRule_token, hb, hy]
  · intro hxne
    have hx' : (toText x == ":") = false := by
      exact beq_eq_false_iff_ne.mpr hxne
    simp +decide [visitExpression, toText_token, getTyped, childrenOfKind,
      List.filter_cons, CST.isRule_token, hb, hx, hx']
  · simp +decide [visitExpression, toText_token, getTyped, childrenOfKind,
      List.filter_cons, CST.isRule_token, hb, hx, hy]

/-- C1 witness: concrete instances of the index/range classification, for the
shapes of `a[:]` and `a[x]`. -/
theorem visitExpression_index_spec_witness :
    visitExpression (fun _ => some 7)
        [CST.rule "Expression" [CST.token "a"], CST.token "[",
         CST.token ":", CST.token "]"] =
      some (EOut.IndexRangeAccess (some 7) none none) ∧
    visitExpression (fun _ => some 7)
        [CST.rule "Expression" [CST.token "a"], CST.token "[",
         CST.rule "Expression" [CST.token "x"], CST.token "]"] =
      some (EOut.IndexAccess (some 7) (some 7)) := by
  have h := visitExpression_index_spec (α := Nat) (fun _ => some 7)
      (CST.rule "Expression" [CST.token "a"])
      (CST.rule "Expression" [CST.token "x"])
      (CST.rule "Expression" [CST.token "y"])
      (CST.token ":") rfl rfl rfl
  exact ⟨h.1 (by decide), h.2.1 (by decide)⟩

/-! ## Override extraction (sources `VisitFunctionDefinition`,
`VisitStateVariableDeclaration`, `VisitModifierDefinition`) -/

/-- Go `append` on a possibly-nil slice: appending to nil allocates; the
result is always non-nil.  `none` models the nil slice, `some` a non-nil
slice (the distinction is observable: nil serializes as an absent value). -/
def goAppend {β : Type} (s : Option (List β)) (x : β) : Option (List β) :=
  some (s.getD [] ++ [x])

/-- Override extraction in `VisitFunctionDefinition`: starts from a nil slice
(`var override []interface{}`) and, when at least one override specifier is
present, appends one visited node per `UserDefinedTypeName` child of the
first specifier. -/
def functionDefOverride {α : Type} (visit : CST → Option α)
    (overrideSpec : List CST) : Option (List (Option α)) :=
  match overrideSpec with
  | [] => none
  | spec :: _ =>
    (childrenOfKind "UserDefinedTypeName" spec.children).foldl
      (fun acc o => goAppend acc (visit o)) none

/-- Override extraction in `VisitStateVariableDeclaration`: same shape as the
function-definition site, starting from a nil slice. -/
def stateVarOverride {α : Type} (visit : CST → Option α)
    (overrideSpec : List CST) : Option (List (Option α)) :=
  match overrideSpec with
  | [] => none
  | spec :: _ =>
    (childrenOfKind "UserDefinedTypeName" spec.children).foldl
      (fun acc o => goAppend acc (visit o)) none

/-- Override extraction in `VisitModifierDefinition`: the field is initialized
to an empty (non-nil) slice (`Override: []interface{}{}`) before any specifier
is scanned. -/
def modifierDefOverride {α : Type} (visit : CST → Option α)
    (overrideSpec : List CST) : Option (List (Option α)) :=
  match overrideSpec with
  | [] => some []
  | spec :: _ =>
    (childrenOfKind "UserDefinedTypeName" spec.children).foldl
      (fun acc o => goAppend acc (visit o)) (some [])

/-- C4 counterexample: a FunctionDefinition whose CST carries no override
specifier gets a nil (absent) Override slice, not the empty list the claim
requires. -/
theorem functionDefOverride_absent_cex :
    functionDefOverride (α := Unit) (fun _ => none) [] = none ∧
    (none : Option (List (Option Unit))) ≠ some [] := by
  exact ⟨rfl, by decide⟩

/-- C4 (amended): with no override specifier present, only
ModifierDefinition yields an empty (non-nil) Override list; FunctionDefinition
and state-variable declarations leave the Override slice nil (absent). -/
theorem override_absent_spec {α : Type} (visit : CST → Option α) :
    functionDefOverride visit [] = none ∧
    stateVarOverride visit [] = none ∧
    modifierDefOverride visit [] = some [] := by
  exact ⟨rfl, rfl, rfl⟩

/-! ## Modifier invocations, source `VisitModifierInvocation` -/

/-- A modifier invocation: name plus an argument slice that distinguishes
nil (no parentheses at all) from empty (empty parentheses). -/
structure ModifierInvocationOut (α : Type) where
  name : String
  arguments : Option (List (Option α))
deriving DecidableEq

/-- Source `VisitModifierInvocation`: with an expression list, the visited
arguments in source order; otherwise an empty slice exactly when the node has
more than one child (parentheses present); otherwise the slice stays nil. -/
def visitModifierInvocation {α : Type} (visit : CST → Option α)
    (cs : List CST) : Option (ModifierInvocationOut α) := do
  let args : Option (List (Option α)) :=
    match findRule "ExpressionList" cs with
    | some el =>
      (childrenOfKind "Expression" el.children).foldl
        (fun acc p => goAppend acc (visit p)) none
    | none => if cs.length > 1 then some [] else none
  let iden ← findRule "Identifier" cs
  pure ⟨toText iden, args⟩

theorem goAppend_foldl {β γ : Type} (f : γ → β) (l : List γ) :
    ∀ acc : List β,
      l.foldl (fun a p => goAppend a (f p)) (some acc) =
        some (acc ++ l.map f) := by
  induction l with
  | nil => intro acc; simp
  | cons p rest ih =>
    intro acc
    rw [List.foldl_cons]
    have h0 : goAppend (some acc) (f p) = some (acc ++ [f p]) := rfl
    rw [h0, ih (acc ++ [f p])]
    simp

/-- C10: a modifier invocation written without parentheses yields an absent
(nil) Arguments field; empty parentheses yield an empty (zero-length)
Arguments list; and for every non-empty expression list, the Arguments are
the visited argument expressions in source order. -/
theorem visitModifierInvocation_spec {α : Type} (visit : CST → Option α)
    (ics els : List CST) :
    (visitModifierInvocation visit [CST.rule "Identifier" ics] =
      some ⟨toText (CST.rule "Identifier" ics), none⟩) ∧
    (visitModifierInvocation visit
        [CST.rule "Identifier" ics, CST.token "(", CST.token ")"] =
      some ⟨toText (CST.rule "Identifier" ics), some []⟩) ∧
    (childrenOfKind "Expression" els ≠ [] →
      visitModifierInvocation visit
        [CST.rule "Identifier" ics, CST.token "(",
         CST.rule "ExpressionList" els, CST.token ")"] =
      some ⟨toText (CST.rule "Identifier" ics),
            some ((childrenOfKind "Expression" els).map visit)⟩) := by
  refine ⟨?_, ?_, ?_⟩
  · simp +decide [visitModifierInvocation, findRule, List.find?,
      CST.isRule_rule, CST.isRule_token]
  · simp +decide [visitModifierInvocation, findRule, List.find?,
      CST.isRule_rule, CST.isRule_token]
  · intro hne
    obtain ⟨e, rest, hexp⟩ := List.exists_cons_of_ne_nil hne
    have hfold : (e :: rest).foldl (fun acc p => goAppend acc (visit p))
        none = some ((e :: rest).map visit) := by
      rw [List.foldl_cons]
      have h0 : goAppend (none : Option (List (Option α))) (visit e) =
          some [visit e] := rfl
      rw [h0, goAppend_foldl]
      simp
    simp +decide [visitModifierInvocation, findRule, List.find?,
      CST.isRule_rule, CST.isRule_token, CST.children_rule, hexp, hfold]

/-- C10 witness: the no-parentheses shape, and a two-argument expression list
showing the arguments in source order. -/
theorem visitModifierInvocation_spec_witness :
    visitModifierInvocation (fun c => some (toText c))
        [CST.rule "Identifier" [CST.token "m"]] =
      some ⟨"m", none⟩ ∧
    visitModifierInvocation (fun c => some (toText c))
        [CST.rule "Identifier" [CST.token "m"], CST.token "(",
         CST.rule "ExpressionList"
           [CST.rule "Expression" [CST.token "1"], CST.token ",",
            CST.rule "Expression" [CST.token "2"]],
         CST.token ")"] =
      some ⟨"m", some [some "1", some "2"]⟩ := by
  have h := visitModifierInvocation_spec (α := String)
      (fun c => some (toText c)) [CST.token "m"]
      [CST.rule "Expression" [CST.token "1"], CST.token ",",
       CST.rule "Expression" [CST.token "2"]]
  exact ⟨h.1.trans (by decide), (h.2.2 (by decide)).trans (by decide)⟩

/-! ## Parameter lists and catch clauses, sources `VisitParameterList` and
`VisitCatchClause` -/

/-- Source `VisitParameterList`: appends one visited node per `Parameter`
child onto a nil slice (so the result is nil when there is no parameter). -/
def visitParameterList {α : Type} (visit : CST → Option α) (cs : List CST) :
    Option (List (Option α)) :=
  (childrenOfKind "Parameter" cs).foldl (fun acc p => goAppend acc (visit p)) none

/-- A catch clause: kind discriminant, reason-type flag, parameters, body. -/
structure CatchClauseOut (α : Type) where
  isReasonType : Bool
  kind : String
  parameters : Option (List (Option α))
  body : Option α
deriving DecidableEq

/-- Source `VisitCatchClause`: the kind is the literal text of the optional
parameter-list identifier, restricted to "Error"/"Panic" (anything else is
fatal); an absent identifier leaves the kind empty; `IsReasonType` is set to
`kind == "Error"`; the body block is visited (fatal when absent) and the
parameter list, when present, is converted via `visitParameterList`. -/
def visitCatchClause {α : Type} (visit : CST → Option α) (cs : List CST) :
    Option (CatchClauseOut α) := do
  let kind ←
    match findRule "Identifier" cs with
    | some iden =>
      let kind := toText iden
      if kind != "Error" && kind != "Panic" then none
      else some kind
    | none => some ""
  let blk ← findRule "Block" cs
  let params : Option (List (Option α)) :=
    match findRule "ParameterList" cs with
    | some pl => visitParameterList visit pl.children
    | none => none
  pure ⟨kind == "Error", kind, params, visit blk⟩

/-- C5: a catch clause's Kind is the literal text of its parameter-list
identifier when that text is "Error" or "Panic"; any other identifier text is
fatal; an absent identifier yields the empty Kind; and IsReasonType holds
exactly when Kind is "Error". -/
theorem visitCatchClause_spec {α : Type} (visit : CST → Option α)
    (cs : List CST) (iden : CST) :
    (findRule "Identifier" cs = some iden → toText iden = "Error" →
      ∀ r, visitCatchClause visit cs = some r →
        r.kind = "Error" ∧ r.isReasonType = true) ∧
    (findRule "Identifier" cs = some iden → toText iden = "Panic" →
      ∀ r, visitCatchClause visit cs = some r →
        r.kind = "Panic" ∧ r.isReasonType = false) ∧
    (findRule "Identifier" cs = some iden → toText iden ≠ "Error" →
      toText iden ≠ "Panic" → visitCatchClause visit cs = none) ∧
    (findRule "Identifier" cs = none →
      ∀ r, visitCatchClause visit cs = some r →
        r.kind = "" ∧ r.isReasonType = false) ∧
    (∀ r, visitCatchClause visit cs = some r →
      r.isReasonType = (r.kind == "Error")) := by
  refine ⟨?_, ?_, ?_, ?_, ?_⟩
  · intro hiden htext r hr
    simp only [visitCatchClause, hiden, htext] at hr
    cases hblk : findRule "Block" cs with
    | none => simp +decide [hblk] at hr
    | some blk =>
      simp +decide [hblk] at hr
      simp [← hr]
  · intro hiden htext r hr
    simp only [visitCatchClause, hiden, htext] at hr
    cases hblk : findRule "Block" cs with
    | none => simp +decide [hblk] at hr
    | some blk =>
      simp +decide [hblk] at hr
      simp [← hr]
  · intro hiden hne hnp
    have h1 : (toText iden != "Error") = true := by simp [hne]
    have h2 : (toText iden != "Panic") = true := by simp [hnp]
    simp [visitCatchClause, hiden, h1, h2]
  · intro hiden r hr
    simp only [visitCatchClause, hiden] at hr
    cases hblk : findRule "Block" cs with
    | none => simp +decide [hblk] at hr
    | some blk =>
      simp +decide [hblk] at hr
      simp [← hr]
  · intro r hr
    simp only [visitCatchClause] at hr
    cases hiden : findRule "Identifier" cs with
    | none =>
      rw [hiden] at hr
      cases hblk : findRule "Block" cs with
      | none => simp +decide [hblk] at hr
      | some blk =>
        simp +decide [hblk] at hr
        simp [← hr]
    | some iden2 =>
      rw [hiden] at hr
      by_cases hk : (toText iden2 != "Error" && toText iden2 != "Panic") = true
      · simp [hk] at hr
      · simp only [hk, Bool.false_eq_true, if_false] at hr
        cases hblk : findRule "Block" cs with
        | none => simp +decide [hblk] at hr
        | some blk =>
          simp +decide [hblk] at hr
          simp [← hr]

/-- C5 witness: a concrete clause `catch Error(...) { }` and a concrete bare
clause, exercising the Error and empty-kind cases. -/
theorem visitCatchClause_spec_witness :
    visitCatchClause (fun _ => some 1)
        [CST.rule "Identifier" [CST.token "Error"],
         CST.rule "ParameterList" [], CST.rule "Block" []] =
      some ⟨true, "Error", none, some 1⟩ ∧
    (⟨true, "Error", none, some 1⟩ : CatchClauseOut Nat).kind = "Error" ∧
    (⟨true, "Error", none, some 1⟩ : CatchClauseOut Nat).isReasonType = true := by
  have hr : visitCatchClause (α := Nat) (fun _ => some 1)
      [CST.rule "Identifier" [CST.token "Error"],
       CST.rule "ParameterList" [], CST.rule "Block" []] =
      some ⟨true, "Error", none, some 1⟩ := by decide
  have h := (visitCatchClause_spec (α := Nat) (fun _ => some 1)
      [CST.rule "Identifier" [CST.token "Error"],
       CST.rule "ParameterList" [], CST.rule "Block" []]
      (CST.rule "Identifier" [CST.token "Error"])).1
      (by decide) (by decide) ⟨true, "Error", none, some 1⟩ hr
  exact ⟨hr, h.1, h.2⟩

/-! ## For statements, sources `VisitExpressionStatement` and
`VisitForStatement` -/

/-- An expression statement: wraps a possibly-absent inner expression. -/
structure ExpressionStatementOut (α : Type) where
  expression : Option α
deriving DecidableEq

/-- Source `VisitExpressionStatement`: visits the mandatory inner expression
child (fatal when absent). -/
def visitExpressionStatement {α : Type} (visit : CST → Option α)
    (cs : List CST) : Option (ExpressionStatementOut α) := do
  let ex ← findRule "Expression" cs
  pure ⟨visit ex⟩

/-- A for statement: optional init and condition, a loop clause always
wrapped as an expression statement, and the body. -/
structure ForStatementOut (α : Type) where
  initExpression : Option α
  conditionExpression : Option α
  loopExpression : ExpressionStatementOut α
  body : Option α
deriving DecidableEq

/-- Condition clause of `VisitForStatement`: the unwrapped inner expression
of the optional `ExpressionStatement` child (outer `none` is the fatal case
where that child is present but malformed). -/
def forConditionExpr {α : Type} (visit : CST → Option α) (cs : List CST) :
    Option (Option α) :=
  match findRule "ExpressionStatement" cs with
  | some es =>
    Option.map (fun o => o.expression) (visitExpressionStatement visit es.children)
  | none => some none

/-- Init clause of `VisitForStatement`: the visited optional
`SimpleStatement` child. -/
def forInitExpr {α : Type} (visit : CST → Option α) (cs : List CST) :
    Option α :=
  match findRule "SimpleStatement" cs with
  | some ss => visit ss
  | none => none

/-- Loop clause content of `VisitForStatement`: the visited own `Expression`
child when present. -/
def forLoopInner {α : Type} (visit : CST → Option α) (cs : List CST) :
    Option α :=
  match findRule "Expression" cs with
  | some ex => visit ex
  | none => none

/-- Source `VisitForStatement`: the condition is the unwrapped inner
expression of the optional `ExpressionStatement` child; the init clause is
the visited optional `SimpleStatement` child; the loop clause is always an
expression-statement wrapper whose inner expression is filled only when the
for node has its own `Expression` child; the body statement is mandatory. -/
def visitForStatement {α : Type} (visit : CST → Option α) (cs : List CST) :
    Option (ForStatementOut α) := do
  let conditionExpr ← forConditionExpr visit cs
  let st ← findRule "Statement" cs
  pure ⟨forInitExpr visit cs, conditionExpr, ⟨forLoopInner visit cs⟩, visit st⟩

/-- C8: in a for statement the init, condition and loop-increment clauses are
each independently optional (absence yields an absent field), and the
loop-increment clause is always re-wrapped as an expression statement — with
an absent inner expression when the clause is absent. -/
theorem visitForStatement_spec {α : Type} (visit : CST → Option α)
    (cs : List CST) :
    (∀ r, visitForStatement visit cs = some r →
      (findRule "SimpleStatement" cs = none → r.initExpression = none) ∧
      (∀ ss, findRule "SimpleStatement" cs = some ss →
        r.initExpression = visit ss) ∧
      (findRule "ExpressionStatement" cs = none →
        r.conditionExpression = none) ∧
      (∀ es ie, findRule "ExpressionStatement" cs = some es →
        findRule "Expression" es.children = some ie →
        r.conditionExpression = visit ie) ∧
      (findRule "Expression" cs = none → r.loopExpression = ⟨none⟩) ∧
      (∀ ex, findRule "Expression" cs = some ex →
        r.loopExpression = ⟨visit ex⟩)) := by
  intro r hr
  simp only [visitForStatement] at hr
  cases hce : forConditionExpr visit cs with
  | none => rw [hce] at hr; simp at hr
  | some ce =>
    rw [hce] at hr
    cases hst : findRule "Statement" cs with
    | none => rw [hst] at hr; simp at hr
    | some st =>
      rw [hst] at hr
      simp only [Option.bind_eq_bind, Option.some_bind, Option.pure_def,
        Option.some_inj] at hr
      subst hr
      refine ⟨?_, ?_, ?_, ?_, ?_, ?_⟩
      · intro h; simp [forInitExpr, h]
      · intro ss h; simp [forInitExpr, h]
      · intro h
        simp only [forConditionExpr, h, Option.some_inj] at hce
        simp [← hce]
      · intro es ie hes hie
        simp only [forConditionExpr, hes, visitExpressionStatement, hie,
          Option.bind_eq_bind, Option.some_bind, Option.pure_def,
          Option.map_some', Option.some_inj] at hce
        simp [← hce]
      · intro h; simp [forLoopInner, h]
      · intro ex h; simp [forLoopInner, h]

/-- C8 witness: a concrete for statement with all three clauses absent:
the init and condition fields are absent and the loop clause is an
expression statement with an absent inner expression. -/
theorem visitForStatement_spec_witness :
    visitForStatement (fun _ => some 2)
        [CST.token "for", CST.token "(", CST.token ";", CST.token ";",
         CST.token ")", CST.rule "Statement" [CST.token "s"]] =
      some ⟨none, none, ⟨none⟩, some 2⟩ ∧
    (⟨none, none, ⟨none⟩, some 2⟩ : ForStatementOut Nat).initExpression = none ∧
    (⟨none, none, ⟨none⟩, some 2⟩ : ForStatementOut Nat).loopExpression = ⟨none⟩ := by
  have hr : visitForStatement (α := Nat) (fun _ => some 2)
      [CST.token "for", CST.token "(", CST.token ";", CST.token ";",
       CST.token ")", CST.rule "Statement" [CST.token "s"]] =
      some ⟨none, none, ⟨none⟩, some 2⟩ := by decide
  have h := visitForStatement_spec (α := Nat) (fun _ => some 2)
      [CST.token "for", CST.token "(", CST.token ";", CST.token ";",
       CST.token ")", CST.rule "Statement" [CST.token "s"]]
      ⟨none, none, ⟨none⟩, some 2⟩ hr
  exact ⟨hr, h.1 (by decide), h.2.2.2.2.1 (by decide)⟩

/-! ## Function definition routing, source `VisitFunctionDefinition` -/

/-- Name, visibility and flags of a function definition. -/
structure FunctionRoutingOut where
  name : String
  visibility : String
  isConstructor : Bool
  isFallback : Bool
  isReceiveEther : Bool
  isVirtual : Bool
deriving DecidableEq

/-- Source `VisitFunctionDefinition`, descriptor/visibility/flag portion:
switches on the literal text of the function descriptor's first child.
"constructor" restricts visibility to internal/public/default and sets the
constructor flag; "fallback" and "receive" force visibility "external" and
set their flags; "function" reads the optional name, selects visibility in
the order external, internal, public, private, and sets the fallback flag
exactly when the name is empty.  The virtual flag is read from the modifier
list in all cases.  (Parameters, modifiers, return parameters, body and
override are handled by the builder's other parts.) -/
def visitFunctionDefinitionRouting (cs : List CST) :
    Option FunctionRoutingOut := do
  let desc ← findRule "FunctionDescriptor" cs
  let modList ← findRule "ModifierList" cs
  let c0 ← desc.children[0]?
  let kw := toText c0
  let isVirtual := hasElem (tokensOfText "virtual" modList.children)
  if kw == "constructor" then
    let visibility :=
      if hasElem (tokensOfText "internal" modList.children) then "internal"
      else if hasElem (tokensOfText "public" modList.children) then "public"
      else "default"
    pure ⟨"", visibility, true, false, false, isVirtual⟩
  else if kw == "fallback" then
    pure ⟨"", "external", false, true, false, isVirtual⟩
  else if kw == "receive" then
    pure ⟨"", "external", false, false, true, isVirtual⟩
  else if kw == "function" then
    let name :=
      match findRule "Identifier" desc.children with
      | some iden => toText iden
      | none => ""
    let visibility :=
      if hasElem (tokensOfText "external" modList.children) then "external"
      else if hasElem (tokensOfText "internal" modList.children) then "internal"
      else if hasElem (tokensOfText "public" modList.children) then "public"
      else if hasElem (tokensOfText "private" modList.children) then "private"
      else "default"
    pure ⟨name, visibility, false, name == "", false, isVirtual⟩
  else
    pure ⟨"", "default", false, false, false, isVirtual⟩

/-- C6: function-definition flags and visibility are routed from the literal
text of the descriptor's introducing keyword: "constructor" sets the
constructor flag with visibility restricted to internal/public/default (a
private keyword alone yields "default"); "fallback"/"receive" set their flags
and force visibility "external"; "function" selects visibility by the ordered
candidate list external, internal, public, private (default "default") and
sets the fallback flag exactly when the optional name is empty. -/
theorem visitFunctionDefinitionRouting_spec (cs dcs mcs : List CST) (c0 : CST)
    (hdesc : findRule "FunctionDescriptor" cs =
      some (CST.rule "FunctionDescriptor" dcs))
    (hmod : findRule "ModifierList" cs = some (CST.rule "ModifierList" mcs))
    (hc0 : dcs[0]? = some c0) :
    (toText c0 = "constructor" →
      ∀ r, visitFunctionDefinitionRouting cs = some r →
        r.isConstructor = true ∧ r.isFallback = false ∧
        r.isReceiveEther = false ∧
        (r.visibility = "internal" ∨ r.visibility = "public" ∨
          r.visibility = "default") ∧
        (hasElem (tokensOfText "internal" mcs) = false →
          hasElem (tokensOfText "public" mcs) = false →
          r.visibility = "default")) ∧
    (toText c0 = "fallback" →
      ∀ r, visitFunctionDefinitionRouting cs = some r →
        r.isFallback = true ∧ r.isConstructor = false ∧
        r.isReceiveEther = false ∧ r.visibility = "external") ∧
    (toText c0 = "receive" →
      ∀ r, visitFunctionDefinitionRouting cs = some r →
        r.isReceiveEther = true ∧ r.isConstructor = false ∧
        r.isFallback = false ∧ r.visibility = "external") ∧
    (toText c0 = "function" →
      ∀ r, visitFunctionDefinitionRouting cs = some r →
        r.isConstructor = false ∧ r.isReceiveEther = false ∧
        r.isFallback = (r.name == "") ∧
        (findRule "Identifier" dcs = none → r.name = "" ∧ r.isFallback = true) ∧
        (∀ iden, findRule "Identifier" dcs = some iden →
          r.name = toText iden) ∧
        r.visibility =
          (if hasElem (tokensOfText "external" mcs) then "external"
           else if hasElem (tokensOfText "internal" mcs) then "internal"
           else if hasElem (tokensOfText "public" mcs) then "public"
           else if hasElem (tokensOfText "private" mcs) then "private"
           else "default")) := by
  refine ⟨?_, ?_, ?_, ?_⟩
  · intro hkw r hr
    simp only [visitFunctionDefinitionRouting, hdesc, hmod, CST.children_rule,
      hc0, hkw, Option.bind_eq_bind, Option.some_bind, Option.pure_def] at hr
    rw [if_pos (by decide)] at hr
    rw [Option.some_inj] at hr
    subst hr
    refine ⟨rfl, rfl, rfl, ?_, ?_⟩
    · by_cases h1 : hasElem (tokensOfText "internal" mcs)
      · simp [h1]
      · by_cases h2 : hasElem (tokensOfText "public" mcs)
        · simp [h1, h2]
        · simp [h1, h2]
    · intro h1 h2
      simp [h1, h2]
  · intro hkw r hr
    simp only [visitFunctionDefinitionRouting, hdesc, hmod, CST.children_rule,
      hc0, hkw, Option.bind_eq_bind, Option.some_bind, Option.pure_def] at hr
    rw [if_neg (by decide), if_pos (by decide)] at hr
    rw [Option.some_inj] at hr
    subst hr
    exact ⟨rfl, rfl, rfl, rfl⟩
  · intro hkw r hr
    simp only [visitFunctionDefinitionRouting, hdesc, hmod, CST.children_rule,
      hc0, hkw, Option.bind_eq_bind, Option.some_bind, Option.pure_def] at hr
    rw [if_neg (by decide), if_neg (by decide), if_pos (by decide)] at hr
    rw [Option.some_inj] at hr
    subst hr
    exact ⟨rfl, rfl, rfl, rfl⟩
  · intro hkw r hr
    simp only [visitFunctionDefinitionRouting, hdesc, hmod, CST.children_rule,
      hc0, hkw, Option.bind_eq_bind, Option.some_bind, Option.pure_def] at hr
    rw [if_neg (by decide), if_neg (by decide), if_neg (by decide),
      if_pos (by decide)] at hr
    rw [Option.some_inj] at hr
    subst hr
    refine ⟨rfl, rfl, rfl, ?_, ?_, rfl⟩
    · intro h
      simp [h]
    · intro iden h
      simp [h]

/-- C6 witness: a concrete named `function foo` descriptor with a public
keyword selects visibility "public" and leaves the fallback flag clear. -/
theorem visitFunctionDefinitionRouting_spec_witness :
    visitFunctionDefinitionRouting
        [CST.rule "FunctionDescriptor"
          [CST.token "function", CST.rule "Identifier" [CST.token "foo"]],
         CST.rule "ModifierList" [CST.token "public"]] =
      some ⟨"foo", "public", false, false, false, false⟩ ∧
    (⟨"foo", "public", false, false, false, false⟩ :
      FunctionRoutingOut).isFallback = (("foo" : String) == "") ∧
    (⟨"foo", "public", false, false, false, false⟩ :
      FunctionRoutingOut).visibility = "public" := by
  have hr : visitFunctionDefinitionRouting
      [CST.rule "FunctionDescriptor"
        [CST.token "function", CST.rule "Identifier" [CST.token "foo"]],
       CST.rule "ModifierList" [CST.token "public"]] =
      some ⟨"foo", "public", false, false, false, false⟩ := by decide
  have h := (visitFunctionDefinitionRouting_spec
      [CST.rule "FunctionDescriptor"
        [CST.token "function", CST.rule "Identifier" [CST.token "foo"]],
       CST.rule "ModifierList" [CST.token "public"]]
      [CST.token "function", CST.rule "Identifier" [CST.token "foo"]]
      [CST.token "public"] (CST.token "function")
      (by decide) (by decide) (by decide)).2.2.2 (by decide)
      ⟨"foo", "public", false, false, false, false⟩ hr
  refine ⟨hr, ?_, ?_⟩
  · exact h.2.2.1.symm ▸ rfl
  · exact h.2.2.2.2.2.trans (by decide)

/-! ## Import directives, source `VisitImportDirective` -/

/-- Trim all leading and trailing occurrences of a character (Go
`strings.Trim` with a one-character cutset). -/
def trimChar (c : Char) (s : String) : String :=
  ⟨((s.toList.dropWhile (fun d => d == c)).reverse.dropWhile
      (fun d => d == c)).reverse⟩

/-- An import directive: path, unit alias (empty when absent) and its
identifier node, and the parallel symbol-alias lists (empty in the bare and
unit-alias forms).  Each symbol alias is a (symbol, alias) pair with an empty
alias when none was written. -/
structure ImportDirectiveOut (α : Type) where
  path : String
  unitAlias : String
  unitAliasIdentifier : Option α
  symbolAliases : List (String × String)
  symbolAliasesIdentifiers : List (Option α × Option α)
deriving DecidableEq

/-- One `ImportDeclaration` (source loop body): the mandatory symbol
identifier and the optional alias identifier. -/
def visitImportDeclaration {α : Type} (visit : CST → Option α) (d : CST) :
    Option ((String × String) × (Option α × Option α)) := do
  let ids := childrenOfKind "Identifier" d.children
  let i0 ← ids[0]?
  match ids[1]? with
  | some i1 => pure ((toText i0, toText i1), (visit i0, visit i1))
  | none => pure ((toText i0, ""), (visit i0, none))

/-- Source `VisitImportDirective`: the quoted import path is trimmed; when
`ImportDeclaration` children are present the symbol-alias lists are built
from them; otherwise the unit alias is taken from the identifier list (no
identifier: nothing; one: that one; two: the second; more: fatal). -/
def visitImportDirective {α : Type} (visit : CST → Option α) (cs : List CST) :
    Option (ImportDirectiveOut α) := do
  let pathCtx ← findRule "ImportPath" cs
  let path := trimChar '\"' (toText pathCtx)
  let importDecl := childrenOfKind "ImportDeclaration" cs
  if importDecl.length > 0 then do
    let l ← importDecl.mapM (visitImportDeclaration visit)
    pure ⟨path, "", none, l.map (fun x => x.1), l.map (fun x => x.2)⟩
  else
    match childrenOfKind "Identifier" cs with
    | [] => pure ⟨path, "", none, [], []⟩
    | [i1] => pure ⟨path, toText i1, visit i1, [], []⟩
    | [_, i2] => pure ⟨path, toText i2, visit i2, [], []⟩
    | _ => none

theorem mapM_option_length {β γ : Type} (f : β → Option γ) :
    ∀ (l : List β) (r : List γ), l.mapM f = some r → r.length = l.length := by
  intro l
  induction l with
  | nil =>
    intro r hr
    simp only [List.mapM_nil, Option.pure_def, Option.some_inj] at hr
    subst hr
    rfl
  | cons a rest ih =>
    intro r hr
    rw [List.mapM_cons] at hr
    cases hfa : f a with
    | none => rw [hfa] at hr; simp at hr
    | some b =>
      rw [hfa] at hr
      cases hrest : rest.mapM f with
      | none => rw [hrest] at hr; simp at hr
      | some bs =>
        rw [hrest] at hr
        simp only [Option.bind_eq_bind, Option.some_bind, Option.pure_def,
          Option.some_inj] at hr
        subst hr
        simp [ih bs hrest]

/-- C7: an import directive populates exactly one of the unit-alias field and
the symbol-alias list: with `ImportDeclaration` children present the
symbol-alias list is non-empty (one ordered entry per declaration) and the
unit alias is empty; with no declarations, one or two identifiers populate
the unit alias (the last identifier) with an empty symbol-alias list; and a
bare import populates neither. -/
theorem visitImportDirective_spec {α : Type} (visit : CST → Option α)
    (cs : List CST) (i1 i2 : CST) :
    (childrenOfKind "ImportDeclaration" cs = [] →
      childrenOfKind "Identifier" cs = [] →
      ∀ r, visitImportDirective visit cs = some r →
        r.unitAlias = "" ∧ r.unitAliasIdentifier = none ∧
        r.symbolAliases = [] ∧ r.symbolAliasesIdentifiers = []) ∧
    (childrenOfKind "ImportDeclaration" cs = [] →
      childrenOfKind "Identifier" cs = [i1] →
      ∀ r, visitImportDirective visit cs = some r →
        r.unitAlias = toText i1 ∧ r.unitAliasIdentifier = visit i1 ∧
        r.symbolAliases = [] ∧ r.symbolAliasesIdentifiers = []) ∧
    (childrenOfKind "ImportDeclaration" cs = [] →
      childrenOfKind "Identifier" cs = [i1, i2] →
      ∀ r, visitImportDirective visit cs = some r →
        r.unitAlias = toText i2 ∧ r.unitAliasIdentifier = visit i2 ∧
        r.symbolAliases = [] ∧ r.symbolAliasesIdentifiers = []) ∧
    (childrenOfKind "ImportDeclaration" cs ≠ [] →
      ∀ r, visitImportDirective visit cs = some r →
        r.unitAlias = "" ∧ r.unitAliasIdentifier = none ∧
        r.symbolAliases ≠ [] ∧
        r.symbolAliases.length =
          (childrenOfKind "ImportDeclaration" cs).length) := by
  refine ⟨?_, ?_, ?_, ?_⟩
  · intro hdecl hiden r hr
    simp only [visitImportDirective, hdecl, hiden] at hr
    cases hp : findRule "ImportPath" cs with
    | none => rw [hp] at hr; simp at hr
    | some p =>
      rw [hp] at hr
      simp only [Option.bind_eq_bind, Option.some_bind, List.length_nil,
        gt_iff_lt, lt_self_iff_false, if_false, Option.pure_def,
        Option.some_inj] at hr
      subst hr
      exact ⟨rfl, rfl, rfl, rfl⟩
  · intro hdecl hiden r hr
    simp only [visitImportDirective, hdecl, hiden] at hr
    cases hp : findRule "ImportPath" cs with
    | none => rw [hp] at hr; simp at hr
    | some p =>
      rw [hp] at hr
      simp only [Option.bind_eq_bind, Option.some_bind, List.length_nil,
        gt_iff_lt, lt_self_iff_false, if_false, Option.pure_def,
        Option.some_inj] at hr
      subst hr
      exact ⟨rfl, rfl, rfl, rfl⟩
  · intro hdecl hiden r hr
    simp only [visitImportDirective, hdecl, hiden] at hr
    cases hp : findRule "ImportPath" cs with
    | none => rw [hp] at hr; simp at hr
    | some p =>
      rw [hp] at hr
      simp only [Option.bind_eq_bind, Option.some_bind, List.length_nil,
        gt_iff_lt, lt_self_iff_false, if_false, Option.pure_def,
        Option.some_inj] at hr
      subst hr
      exact ⟨rfl, rfl, rfl, rfl⟩
  · intro hdecl r hr
    simp only [visitImportDirective] at hr
    cases hp : findRule "ImportPath" cs with
    | none => rw [hp] at hr; simp at hr
    | some p =>
      rw [hp] at hr
      have hlen : (childrenOfKind "ImportDeclaration" cs).length > 0 := by
        cases hd : childrenOfKind "ImportDeclaration" cs with
        | nil => exact absurd hd hdecl
        | cons a as => simp [hd]
      simp only [Option.bind_eq_bind, Option.some_bind, hlen, if_true] at hr
      cases hm : (childrenOfKind "ImportDeclaration" cs).mapM
          (visitImportDeclaration visit) with
      | none => rw [hm] at hr; simp at hr
      | some l =>
        rw [hm] at hr
        simp only [Option.bind_eq_bind, Option.some_bind, Option.pure_def,
          Option.some_inj] at hr
        subst hr
        have hl := mapM_option_length (visitImportDeclaration visit) _ l hm
        refine ⟨rfl, rfl, ?_, ?_⟩
        · simp only [ne_eq, List.map_eq_nil_iff]
          intro h
          subst h
          simp at hl
          exact hlen.ne (hl ▸ rfl)
        · simp [hl]

/-- C7 witness: a bare import and a single-declaration symbol import at
concrete CSTs. -/
theorem visitImportDirective_spec_witness :
    visitImportDirective (fun _ => some 4)
        [CST.token "import", CST.rule "ImportPath" [CST.token "\"p\""],
         CST.token ";"] =
      some ⟨"p", "", none, [], []⟩ ∧
    visitImportDirective (fun _ => some 4)
        [CST.token "import",
         CST.rule "ImportDeclaration" [CST.rule "Identifier" [CST.token "a"]],
         CST.rule "ImportPath" [CST.token "\"p\""], CST.token ";"] =
      some ⟨"p", "", none, [("a", "")], [(some 4, none)]⟩ ∧
    ([("a", "")] : List (String × String)) ≠ [] := by
  have h1 : visitImportDirective (α := Nat) (fun _ => some 4)
      [CST.token "import", CST.rule "ImportPath" [CST.token "\"p\""],
       CST.token ";"] = some ⟨"p", "", none, [], []⟩ := by decide
  have h2 : visitImportDirective (α := Nat) (fun _ => some 4)
      [CST.token "import",
       CST.rule "ImportDeclaration" [CST.rule "Identifier" [CST.token "a"]],
       CST.rule "ImportPath" [CST.token "\"p\""], CST.token ";"] =
      some ⟨"p", "", none, [("a", "")], [(some 4, none)]⟩ := by decide
  have h3 := (visitImportDirective_spec (α := Nat) (fun _ => some 4)
      [CST.token "import",
       CST.rule "ImportDeclaration" [CST.rule "Identifier" [CST.token "a"]],
       CST.rule "ImportPath" [CST.token "\"p\""], CST.token ";"]
      (CST.token "x") (CST.token "y")).2.2.2 (by decide)
      ⟨"p", "", none, [("a", "")], [(some 4, none)]⟩ h2
  exact ⟨h1, h2, h3.2.2.1⟩

/-! ## Literal construction, sources `VisitHexLiteral`, the string-literal
branch of `VisitPrimaryExpression`, and `VisitNumberLiteral` -/

/-- Go `strings.TrimPrefix`: remove the prefix when present. -/
def trimPrefixStr (pre s : String) : String :=
  if pre.isPrefixOf s then s.drop pre.length else s

/-- A hex literal: concatenated value plus the individual fragments. -/
structure HexLiteralOut where
  value : String
  parts : List String
deriving DecidableEq

/-- Source `VisitHexLiteral`: each `HexLiteralFragment` child's text is
stripped of its "hex" prefix and surrounding quotes; the value is the
concatenation of the parts. -/
def visitHexLiteral (cs : List CST) : HexLiteralOut :=
  let parts := (childrenOfKind "HexLiteralFragment" cs).map
    (fun p => trimChar '\"' (trimPrefixStr "hex" (toText p)))
  ⟨String.join parts, parts⟩

/-- A string literal: concatenated value, fragment parts, per-fragment
unicode flags. -/
structure StringLiteralOut where
  value : String
  parts : List String
  isUnicode : List Bool
deriving DecidableEq

/-- One string fragment (source loop body): strip an optional "unicode"
prefix and the surrounding quote characters. -/
def stringFragmentValue (text : String) : String :=
  let t := if "unicode".isPrefixOf text then trimPrefixStr "unicode" text
    else text
  (t.drop 1).dropRight 1

/-- String-literal branch of source `VisitPrimaryExpression`: parts and
unicode flags are accumulated per fragment and the value is the concatenation
of the accumulated fragment values. -/
def buildStringLiteral (fragments : List String) : StringLiteralOut :=
  let values := fragments.map stringFragmentValue
  ⟨String.join values, values, fragments.map (fun t => "unicode".isPrefixOf t)⟩

/-- A number literal: raw text plus optional denomination unit. -/
structure NumberLiteralOut where
  number : String
  subDenomination : Option String
deriving DecidableEq

/-- Source `VisitNumberLiteral`: the number is the text of the first child
and the denomination the text of the second child when the node has exactly
two children. -/
def visitNumberLiteral (cs : List CST) : Option NumberLiteralOut := do
  let c0 ← cs[0]?
  pure ⟨toText c0, if cs.length == 2 then (cs[1]?).map toText else none⟩

/-- C9: for every literal form the concatenation of the stored fragments
equals the stored aggregate value: a hex literal's Value is the concatenation
of its Parts, a string literal's Value is the concatenation of its Parts, and
a number literal's stored number and optional denomination re-form the raw
text of the literal node. -/
theorem literal_roundtrip_spec (cs : List CST) (frags : List String)
    (k : String) (c0 c1 : CST) :
    (visitHexLiteral cs).value = String.join (visitHexLiteral cs).parts ∧
    (buildStringLiteral frags).value =
      String.join (buildStringLiteral frags).parts ∧
    (∀ r, visitNumberLiteral [c0] = some r →
      r.number ++ (r.subDenomination.getD "") = toText (CST.rule k [c0])) ∧
    (∀ r, visitNumberLiteral [c0, c1] = some r →
      r.number ++ (r.subDenomination.getD "") = toText (CST.rule k [c0, c1])) := by
  refine ⟨rfl, rfl, ?_, ?_⟩
  · intro r hr
    simp only [visitNumberLiteral, List.getElem?_cons_zero,
      Option.bind_eq_bind, Option.some_bind, Option.pure_def,
      Option.some_inj] at hr
    subst hr
    simp [toText, toTextList]
  · intro r hr
    simp only [visitNumberLiteral, List.getElem?_cons_zero,
      List.getElem?_cons_succ, Option.bind_eq_bind, Option.some_bind,
      Option.pure_def, Option.some_inj] at hr
    subst hr
    simp [toText, toTextList, String.append_assoc]

/-- C9 witness: a concrete number literal `100 wei` re-forms its raw text. -/
theorem literal_roundtrip_spec_witness :
    visitNumberLiteral [CST.token "100", CST.token "wei"] =
      some ⟨"100", some "wei"⟩ ∧
    ("100" ++ (some "wei").getD "" : String) =
      toText (CST.rule "NumberLiteral" [CST.token "100", CST.token "wei"]) := by
  have h := (literal_roundtrip_spec [] [] "NumberLiteral"
      (CST.token "100") (CST.token "wei")).2.2.2
      ⟨"100", some "wei"⟩ (by decide)
  exact ⟨by decide, h⟩

/-! ## Dispatch/traversal engine, sources `Visit` and `skipNode`

The dispatcher is modelled at the tag level: an AST node is reduced to its
discriminant tag field plus the number of `SetTypeName` calls it has
received, and each registered builder is reduced to its observable action —
constructing a fresh node (with the struct-literal initial tag), returning
the dispatcher's own result on a chosen child (the pass-through builders),
returning a value that does not implement the node interface (the
inline-assembly family and the slice-returning list builders, on which the
dispatcher's type assertion is fatal), returning nil, or hitting a
missing-builder or internal panic.  Failures of sub-visits inside fresh
builders abort the whole traversal and are therefore not tracked by this
tag-level model. -/

/-- Source `skipNode`: the fixed suppression list of pass-through
productions. -/
def skipNode (i : String) : Bool :=
  ["ContractPart", "Statement", "SimpleStatement", "Expression", "TypeName",
   "MappingKey", "PrimaryExpression", "Parameter",
   "FunctionTypeParameter"].contains i

/-- An AST node at the tag level: the discriminant tag field and the number
of `SetTypeName` calls received so far (a struct-literal initialization is
not a call). -/
structure ANode where
  type_ : String
  setCount : Nat
deriving DecidableEq

/-- Source `SetTypeName`: overwrite the tag field, counted. -/
def setTypeName (n : ANode) (typ : String) : ANode :=
  ⟨typ, n.setCount + 1⟩

/-- Observable action of a registered builder. -/
inductive BuildAct where
  | fresh (initTag : String)
  | delegate (child : Option CST)
  | retNil
  | nonNode
  | fatal
deriving DecidableEq

/-- The literal tag written by each fresh branch of `VisitExpression`. -/
def exprTag {α : Type} : EOut α → String
  | .delegateChild _ => ""
  | .NewExpression _ => "NewExpression"
  | .UnaryOperation _ _ _ => "UnaryOperation"
  | .TupleExpression _ _ => "TupleExpression"
  | .MemberAccess _ _ => "MemberAccess"
  | .BinaryOperation _ _ _ => "BinaryOperation"
  | .FunctionCall _ _ _ _ => "FunctionCall"
  | .IndexRangeAccess _ _ _ => "IndexRangeAccess"
  | .IndexAccess _ _ => "IndexAccess"
  | .NameValueExpression _ _ => "NameValueExpression"
  | .Conditional _ _ _ => "Conditional"

/-- Action of the "Expression" builder: delegation in the single-child case,
otherwise a fresh node carrying the branch's literal tag; unmatched shapes
are fatal. -/
def exprAct (cs : List CST) : BuildAct :=
  match visitExpression (α := Unit) (fun _ => none) cs with
  | none => .fatal
  | some (.delegateChild c) => .delegate (some c)
  | some r => .fresh (exprTag r)

/-- Action of the "TypeName" builder (source `VisitTypeName`): more than two
children build an array type (fatal when the length expression or base type
is missing), exactly two build an elementary type with a mutability
qualifier, otherwise the builder delegates to its
elementary/user-defined/mapping/function-type child; anything else is
fatal. -/
def typeNameAct (cs : List CST) : BuildAct :=
  if cs.length > 2 then
    if cs.length == 4 && (findRule "Expression" cs).isNone then .fatal
    else if (findRule "TypeName" cs).isNone then .fatal
    else .fresh "ArrayTypeName"
  else if cs.length == 2 then .fresh "ElementaryTypeName"
  else
    match findRule "ElementaryTypeName" cs with
    | some c => .delegate (some c)
    | none =>
      match findRule "UserDefinedTypeName" cs with
      | some c => .delegate (some c)
      | none =>
        match findRule "Mapping" cs with
        | some c => .delegate (some c)
        | none =>
          match findRule "FunctionTypeName" cs with
          | some c => .delegate (some c)
          | none => .fatal

/-- Action of the "MappingKey" builder: delegate to the elementary or
user-defined type child, otherwise fatal. -/
def mappingKeyAct (cs : List CST) : BuildAct :=
  match findRule "ElementaryTypeName" cs with
  | some c => .delegate (some c)
  | none =>
    match findRule "UserDefinedTypeName" cs with
    | some c => .delegate (some c)
    | none => .fatal

/-- The boolean-literal token child, identified by its text (the ANTLR
accessor matches the token type). -/
def findBooleanTok (cs : List CST) : Option CST :=
  cs.find? (fun c => match c with
    | .token t => t == "true" || t == "false"
    | .rule _ _ => false)

/-- Action of the "PrimaryExpression" builder (source
`VisitPrimaryExpression`): first applicable of boolean literal (fresh), hex
literal (delegate), string literal (fresh), number literal (delegate), the
"type" keyword (fresh identifier), the unimplemented bracket form (fatal),
else delegate to the first child. -/
def primaryExpressionAct (cs : List CST) : BuildAct :=
  if (findBooleanTok cs).isSome then .fresh "BooleanLiteral"
  else
    match findRule "HexLiteral" cs with
    | some c => .delegate (some c)
    | none =>
      match findRule "StringLiteral" cs with
      | some _ => .fresh "StringLiteral"
      | none =>
        match findRule "NumberLiteral" cs with
        | some c => .delegate (some c)
        | none =>
          if (tokensOfText "type" cs).length > 0 then .fresh "Identifier"
          else
            match cs with
            | [a, _, c] =>
              if toText a == "[" && toText c == "]" then .fatal
              else .delegate (some a)
            | _ => .delegate cs[0]?

/-- The non-pass-through productions of the AST core, whose builders
construct a fresh node with a zero-value tag field.  The inline-assembly
family is absent: those builders return values that do not implement the
node interface, so the dispatcher's type assertion aborts the traversal on
any assembly construct. -/
def freshNodeKinds : List String :=
  ["SourceUnit", "PragmaDirective", "ContractDefinition",
   "InheritanceSpecifier", "StructDefinition", "VariableDeclaration",
   "Identifier", "StateVariableDeclaration", "FunctionDefinition",
   "ModifierInvocation", "Block", "ExpressionStatement", "Mapping",
   "NameValueList", "TupleExpression", "TypeNameExpression", "NumberLiteral",
   "HexLiteral", "ForStatement", "VariableDeclarationStatement",
   "WhileStatement", "DoWhileStatement", "IfStatement", "EventDefinition",
   "ImportDirective", "EnumDefinition", "EnumValue", "BreakStatement",
   "ContinueStatement", "ReturnStatement", "ModifierDefinition",
   "OverrideSpecifier", "FunctionTypeName", "UsingForDeclaration",
   "EmitStatement", "ThrowStatement", "FunctionCall",
   "CustomErrorDefinition", "TryStatement", "CatchClause",
   "FileLevelConstant", "UncheckedStatement", "TypeDefinition",
   "ElementaryTypeName", "UserDefinedTypeName", "RevertStatement"]

/-- The inline-assembly productions: registered builders whose results do not
implement the node interface (spec-level: low-level blocks are opaque and
out of scope). -/
def nonNodeKinds : List String :=
  ["InlineAssemblyStatement", "AssemblyBlock", "AssemblyItem",
   "AssemblyExpression", "AssemblyCall", "AssemblyLiteral", "AssemblySwitch",
   "AssemblyCase", "AssemblyLocalDefinition", "AssemblyFunctionDefinition",
   "AssemblyAssignment", "AssemblyFor", "AssemblyIf", "AssemblyMember"]

/-- The builder action of each production, translated from the Go builders:
the three always-delegating wrappers pass their first child on; the four
conditional pass-through productions follow their builders' branch logic;
`Parameter` and `FunctionTypeParameter` construct fresh nodes whose struct
literal pre-sets the tag "VariableDeclaration"; the core productions
construct fresh nodes with a zero-value tag; the slice-returning list
builders yield nil for an empty list and a non-node slice otherwise; any
production without a registered builder is fatal. -/
def act (kind : String) (cs : List CST) : BuildAct :=
  if kind == "ContractPart" || kind == "Statement" || kind == "SimpleStatement"
  then .delegate cs[0]?
  else if kind == "Expression" then exprAct cs
  else if kind == "TypeName" then typeNameAct cs
  else if kind == "MappingKey" then mappingKeyAct cs
  else if kind == "PrimaryExpression" then primaryExpressionAct cs
  else if kind == "Parameter" || kind == "FunctionTypeParameter" then
    .fresh "VariableDeclaration"
  else if freshNodeKinds.contains kind then .fresh ""
  else if nonNodeKinds.contains kind then .nonNode
  else if kind == "ParameterList" then
    if (childrenOfKind "Parameter" cs).isEmpty then .retNil else .nonNode
  else if kind == "ReturnParameters" then
    match findRule "ParameterList" cs with
    | none => .fatal
    | some pl =>
      if (childrenOfKind "Parameter" pl.children).isEmpty then .retNil
      else .nonNode
  else .fatal

/-- Source `Visit` (the dispatcher), at the tag level, with an explicit
recursion budget (recursion depth is bounded by source nesting; spec §5).
A terminal token yields no node; otherwise the production's builder acts; a
nil builder result propagates as absence; a non-node result or missing
builder is fatal; and the production name is assigned as the returned node's
tag exactly when the production is not suppressed. -/
def Visit : Nat → CST → Except Unit (Option ANode)
  | 0, _ => .error ()
  | _ + 1, .token _ => .ok none
  | fuel + 1, .rule kind cs =>
    match act kind cs with
    | .fresh t0 =>
      if skipNode kind then .ok (some ⟨t0, 0⟩)
      else .ok (some (setTypeName ⟨t0, 0⟩ kind))
    | .delegate none => .error ()
    | .delegate (some c) =>
      match Visit fuel c with
      | .error e => .error e
      | .ok none => .ok none
      | .ok (some m) =>
        if skipNode kind then .ok (some m)
        else .ok (some (setTypeName m kind))
    | .retNil => .ok none
    | .nonNode => .error ()
    | .fatal => .error ()

theorem act_delegate_skip (kind : String) (cs : List CST) (c : Option CST)
    (h : act kind cs = .delegate c) : skipNode kind = true := by
  by_cases h1 : (kind == "ContractPart" || kind == "Statement" ||
      kind == "SimpleStatement") = true
  · simp only [Bool.or_eq_true, beq_iff_eq] at h1
    rcases h1 with (h1 | h1) | h1 <;> subst h1 <;> decide
  · rw [act, if_neg h1] at h
    by_cases h2 : (kind == "Expression") = true
    · simp only [beq_iff_eq] at h2; subst h2; decide
    · rw [if_neg h2] at h
      by_cases h3 : (kind == "TypeName") = true
      · simp only [beq_iff_eq] at h3; subst h3; decide
      · rw [if_neg h3] at h
        by_cases h4 : (kind == "MappingKey") = true
        · simp only [beq_iff_eq] at h4; subst h4; decide
        · rw [if_neg h4] at h
          by_cases h5 : (kind == "PrimaryExpression") = true
          · simp only [beq_iff_eq] at h5; subst h5; decide
          · rw [if_neg h5] at h
            exfalso
            by_cases h6 : (kind == "Parameter" ||
                kind == "FunctionTypeParameter") = true
            · rw [if_pos h6] at h; simp at h
            · rw [if_neg h6] at h
              by_cases h7 : (freshNodeKinds.contains kind) = true
              · rw [if_pos h7] at h; simp at h
              · rw [if_neg h7] at h
                by_cases h8 : (nonNodeKinds.contains kind) = true
                · rw [if_pos h8] at h; simp at h
                · rw [if_neg h8] at h
                  by_cases h9 : (kind == "ParameterList") = true
                  · rw [if_pos h9] at h
                    split at h <;> simp at h
                  · rw [if_neg h9] at h
                    by_cases h10 : (kind == "ReturnParameters") = true
                    · rw [if_pos h10] at h
                      split at h
                      · simp at h
                      · split at h <;> simp at h
                    · rw [if_neg h10] at h
                      simp at h

/-- C3: in every completed traversal, a node returned for a production
outside the suppression list carries that production's name as its tag,
assigned by exactly one `SetTypeName` call; no returned node's tag is set
more than once; and a suppressed production returns the delegated node
unchanged, keeping that node's tag. -/
theorem Visit_tag_discipline :
    (∀ fuel t n, Visit fuel t = .ok (some n) → n.setCount ≤ 1) ∧
    (∀ fuel kind cs n, Visit fuel (.rule kind cs) = .ok (some n) →
      skipNode kind = false → n.type_ = kind ∧ n.setCount = 1) ∧
    (∀ fuel kind cs c n, skipNode kind = true →
      act kind cs = .delegate (some c) →
      Visit (fuel + 1) (.rule kind cs) = .ok (some n) →
      Visit fuel c = .ok (some n)) := by
  have part1 : ∀ fuel t n, Visit fuel t = .ok (some n) → n.setCount ≤ 1 := by
    intro fuel
    induction fuel with
    | zero => intro t n h; simp [Visit] at h
    | succ f ih =>
      intro t n h
      cases t with
      | token s => simp [Visit] at h
      | rule kind cs =>
        simp only [Visit] at h
        split at h
        · rename_i t0 heq
          split at h
          · simp only [Except.ok.injEq, Option.some_inj] at h
            subst h
            simp
          · simp only [Except.ok.injEq, Option.some_inj] at h
            subst h
            simp [setTypeName]
        · simp at h
        · rename_i c heq
          have hskip := act_delegate_skip kind cs (some c) heq
          split at h
          · simp at h
          · simp at h
          · rename_i m heq2
            rw [if_pos hskip] at h
            simp only [Except.ok.injEq, Option.some_inj] at h
            subst h
            exact ih c m heq2
        · simp at h
        · simp at h
        · simp at h
  refine ⟨part1, ?_, ?_⟩
  · intro fuel kind cs n h hskip
    cases fuel with
    | zero => simp [Visit] at h
    | succ f =>
      simp only [Visit] at h
      split at h
      · rename_i t0 heq
        rw [if_neg (by simp [hskip])] at h
        simp only [Except.ok.injEq, Option.some_inj] at h
        subst h
        exact ⟨rfl, rfl⟩
      · simp at h
      · rename_i c heq
        have := act_delegate_skip kind cs (some c) heq
        rw [this] at hskip
        cases hskip
      · simp at h
      · simp at h
      · simp at h
  · intro fuel kind cs c n hskip hact h
    simp only [Visit, hact] at h
    split at h
    · simp at h
    · simp at h
    · rename_i m heq2
      rw [if_pos hskip] at h
      simp only [Except.ok.injEq, Option.some_inj] at h
      subst h
      exact heq2

/-- C3 witness: a concrete `EnumValue` node gets tag "EnumValue" with exactly
one assignment, and the suppressed `Statement` wrapper returns its delegated
node unchanged. -/
theorem Visit_tag_discipline_witness :
    Visit 1 (CST.rule "EnumValue" []) = .ok (some ⟨"EnumValue", 1⟩) ∧
    (⟨"EnumValue", 1⟩ : ANode).setCount ≤ 1 ∧
    (⟨"EnumValue", 1⟩ : ANode).type_ = "EnumValue" ∧
    Visit 2 (CST.rule "Statement" [CST.rule "EnumValue" []]) =
      .ok (some ⟨"EnumValue", 1⟩) := by
  have hr : Visit 1 (CST.rule "EnumValue" []) =
      .ok (some ⟨"EnumValue", 1⟩) := by rfl
  have hr2 : Visit 2 (CST.rule "Statement" [CST.rule "EnumValue" []]) =
      .ok (some ⟨"EnumValue", 1⟩) := by rfl
  have h1 := Visit_tag_discipline.1 1 (CST.rule "EnumValue" [])
      ⟨"EnumValue", 1⟩ hr
  have h2 := Visit_tag_discipline.2.1 1 "EnumValue" [] ⟨"EnumValue", 1⟩
      hr (by decide)
  have h3 := Visit_tag_discipline.2.2 1 "Statement" [CST.rule "EnumValue" []]
      (CST.rule "EnumValue" []) ⟨"EnumValue", 1⟩ (by decide) (by rfl) hr2
  exact ⟨h3, h1, h2.1, hr2⟩

end SolParser
